import Mathlib

/-!
Verification of the target-cardinality predicate synthesis engine and the
keyset cursor paginator of the mongodb-query-performance repository.

The embedding models the MongoDB collections as Lean lists:
the `users` collection is a `List User` and the `documents` collection a
`List Doc`.  Query predicates are a structured `Filter` AST (equality,
inclusive range, set membership, conjunction — the closed set of forms the
generator emits), evaluated by `filterMatches`; `countDocuments` counts the
matching entities.  `Math.random()` draws are modelled as explicit
parameters (an oracle `Nat → Filter` for the randomized strategy dispatch
in `generatePreciseUserFilter`, a rational in `[0,1)` for the fallback
range strategy).  Floating-point expressions such as
`Math.ceil(targetCount * 0.1)` are modelled at the exact rational level.
-/

namespace MQP

/-- An entity of the `users` collection (src/filters.ts): the well-known
attributes used by the filter generator and the distribution profiler. -/
structure User where
  age : Int
  salary : Int
  status : String
  department : String
  location : String
  isManager : Bool
  email : String
  joinDate : Int
deriving DecidableEq, Repr

/-- The structured query predicates emitted by `generatePreciseUserFilter`
(src/filters.ts): match-all `{}`, inclusive numeric ranges on `age` /
`salary`, equality and `$in` membership on the categorical fields,
`isManager` equality, and `$and` of sub-predicates. -/
inductive Filter where
  | matchAll : Filter
  | ageRange (lo hi : Int) : Filter
  | salaryRange (lo hi : Int) : Filter
  | statusEq (v : String) : Filter
  | departmentEq (v : String) : Filter
  | locationEq (v : String) : Filter
  | statusIn (vs : List String) : Filter
  | departmentIn (vs : List String) : Filter
  | locationIn (vs : List String) : Filter
  | isManagerEq (b : Bool) : Filter
  | andAll (fs : List Filter) : Filter

mutual

/-- MongoDB match semantics of a `Filter` against one user document. -/
def filterMatches : Filter → User → Bool
  | .matchAll, _ => true
  | .ageRange lo hi, u => decide (lo ≤ u.age) && decide (u.age ≤ hi)
  | .salaryRange lo hi, u => decide (lo ≤ u.salary) && decide (u.salary ≤ hi)
  | .statusEq v, u => u.status == v
  | .departmentEq v, u => u.department == v
  | .locationEq v, u => u.location == v
  | .statusIn vs, u => vs.contains u.status
  | .departmentIn vs, u => vs.contains u.department
  | .locationIn vs, u => vs.contains u.location
  | .isManagerEq b, u => u.isManager == b
  | .andAll fs, u => filterMatchesAll fs u

/-- Conjunction of a list of sub-predicates (`$and`). -/
def filterMatchesAll : List Filter → User → Bool
  | [], _ => true
  | f :: fs, u => filterMatches f u && filterMatchesAll fs u

end

/-- `usersCollection.countDocuments(filter)`: the exact number of users
matching the predicate. -/
def countDocuments (db : List User) (f : Filter) : Nat :=
  (db.filter (filterMatches f)).length

/-- `Math.ceil(targetCount * 0.1)` (src/filters.ts line 287), at the exact
rational level: the ceiling of one tenth of the target. -/
def marginOfError (targetCount : Nat) : Nat :=
  (targetCount + 9) / 10

/-- Distance of an observed count from the acceptable range
`[minCount, maxCount]` (src/filters.ts lines 304-309): `0` inside the
range, otherwise the gap to the nearer bound. -/
def distTo (minCount maxCount count : Nat) : Nat :=
  if count < minCount then minCount - count
  else if count > maxCount then count - maxCount
  else 0

/-- Embedding of `generatePreciseUserFilter` (src/filters.ts lines
136-275), instrumented with the number of `countDocuments` queries it
issues.  The function first counts the whole collection (one count query)
and returns the match-all filter when `targetCount >= totalUsers`; the
randomized strategies 1-4 (percentile sampling, categorical set cover,
conjunctive refinement, fallback range — all driven by `Math.random()`
and aggregation sampling, none of which issues a count query) are
abstracted by the oracle argument `rest` supplying the filter they would
produce.  Returns the produced filter and the count-query total. -/
def generatePreciseUserFilter (db : List User) (targetCount : Nat)
    (rest : Filter) : Filter × Nat :=
  let totalUsers := countDocuments db Filter.matchAll
  if totalUsers ≤ targetCount then (Filter.matchAll, 1)
  else (rest, 1)

/-- Synthesis result of `generateOptimalUserFilter`: the accepted or
best-effort predicate, its observed count, and the requested target. -/
structure SynthResult where
  filter : Filter
  count : Nat
  targetCount : Nat

/-- Comparison against the running `bestDistance`, which starts at
`Infinity` (modelled as `none`): `distance < bestDistance`
(src/filters.ts line 319). -/
def distLtBest (d : Nat) : Option Nat → Bool
  | none => true
  | some bd => decide (d < bd)

/-- The attempt loop of `generateOptimalUserFilter` (src/filters.ts lines
297-324).  Input: per-attempt pairs of the generated filter and the count
queries its generation issued; the running best filter / best count /
best distance (`none` models the initial `Infinity`).  Each attempt counts
its candidate (one further count query), returns it immediately on
distance `0`, and otherwise keeps the strictly closest candidate seen so
far.  Returns `((bestFilter, bestCount), attempts performed, count
queries issued)`. -/
def optimalLoop (db : List User) (minCount maxCount : Nat) :
    List (Filter × Nat) → Filter → Nat → Option Nat → (Filter × Nat) × Nat × Nat
  | [], bF, bC, _ => ((bF, bC), 0, 0)
  | (f, qg) :: rest, bF, bC, bD =>
    let c := countDocuments db f
    let d := distTo minCount maxCount c
    if d = 0 then ((f, c), 1, qg + 1)
    else
      let r :=
        if distLtBest d bD then optimalLoop db minCount maxCount rest f c (some d)
        else optimalLoop db minCount maxCount rest bF bC bD
      (r.1, r.2.1 + 1, qg + 1 + r.2.2)

/-- Embedding of `generateOptimalUserFilter` (src/filters.ts lines
278-332), instrumented with attempt and count-query totals.  `restGen`
is the per-attempt oracle for the randomized strategies inside
`generatePreciseUserFilter`.  Margin is `ceil(targetCount * 0.1)`; the
acceptable range is `[targetCount, targetCount + margin]`; up to 10
attempts are made.  Returns `(result, attempts performed, count queries
issued)`. -/
def generateOptimalUserFilter (db : List User) (restGen : Nat → Filter)
    (targetCount : Nat) : SynthResult × Nat × Nat :=
  let minCount := targetCount
  let maxCount := targetCount + marginOfError targetCount
  let cands := (List.range 10).map
    (fun i => generatePreciseUserFilter db targetCount (restGen i))
  let r := optimalLoop db minCount maxCount cands Filter.matchAll 0 none
  (⟨r.1.1, r.1.2, targetCount⟩, r.2)

/-- The counted candidate produced by one attempt: the generated filter
paired with its observed document count. -/
def candOf (db : List User) (f : Filter) : Filter × Nat :=
  (f, countDocuments db f)

/-- Distance of a candidate filter's observed count from the acceptable
range. -/
def candDist (db : List User) (minCount maxCount : Nat) (f : Filter) : Nat :=
  distTo minCount maxCount (countDocuments db f)

/-- Case analysis of the attempt loop, by induction on the remaining
attempts.  Either some attempt hits distance `0` and its candidate is
returned, or every attempt is consumed and the result is the running
best `(bF, bC)` (when no candidate strictly beat `bD`) or the earliest
candidate achieving the minimum distance strictly below `bD`. -/
theorem optimalLoop_cases (db : List User) (minC maxC : Nat) :
    ∀ (cs : List (Filter × Nat)) (bF : Filter) (bC : Nat) (bD : Option Nat),
    (∃ (i : Nat) (f : Filter) (q : Nat), cs[i]? = some (f, q) ∧
        (optimalLoop db minC maxC cs bF bC bD).1 = candOf db f ∧
        candDist db minC maxC f = 0)
    ∨ ((optimalLoop db minC maxC cs bF bC bD).2.1 = cs.length ∧
       (((optimalLoop db minC maxC cs bF bC bD).1 = (bF, bC) ∧
          ∀ (i : Nat) (f : Filter) (q : Nat), cs[i]? = some (f, q) →
            distLtBest (candDist db minC maxC f) bD = false)
        ∨ (∃ (i : Nat) (f : Filter) (q : Nat), cs[i]? = some (f, q) ∧
            (optimalLoop db minC maxC cs bF bC bD).1 = candOf db f ∧
            candDist db minC maxC f ≠ 0 ∧
            distLtBest (candDist db minC maxC f) bD = true ∧
            (∀ (j : Nat) (g : Filter) (q2 : Nat), cs[j]? = some (g, q2) →
              candDist db minC maxC f ≤ candDist db minC maxC g) ∧
            (∀ (j : Nat), j < i → ∀ (g : Filter) (q2 : Nat), cs[j]? = some (g, q2) →
              candDist db minC maxC f < candDist db minC maxC g)))) := by
  intro cs
  induction cs with
  | nil =>
    intro bF bC bD
    right
    refine ⟨rfl, Or.inl ⟨rfl, ?_⟩⟩
    intro i f q h
    simp at h
  | cons hd rest ih =>
    obtain ⟨f, qg⟩ := hd
    intro bF bC bD
    by_cases hd0 : distTo minC maxC (countDocuments db f) = 0
    · left
      refine ⟨0, f, qg, by simp, ?_, hd0⟩
      simp [optimalLoop, hd0, candOf]
    · by_cases hlt : distLtBest (distTo minC maxC (countDocuments db f)) bD = true
      · have heq : optimalLoop db minC maxC ((f, qg) :: rest) bF bC bD =
            (let r := optimalLoop db minC maxC rest f (countDocuments db f)
                (some (distTo minC maxC (countDocuments db f)))
             (r.1, r.2.1 + 1, qg + 1 + r.2.2)) := by
          simp [optimalLoop, hd0, hlt]
        rcases ih f (countDocuments db f)
            (some (distTo minC maxC (countDocuments db f))) with
          ⟨i, g, q2, hg, hres, hzero⟩ | ⟨hlen, hinner⟩
        · left
          exact ⟨i + 1, g, q2, by simpa using hg, by simp [heq, hres], hzero⟩
        · right
          constructor
          · simp [heq, hlen]
          · right
            rcases hinner with ⟨hres, hall⟩ | ⟨i, g, q2, hg, hres, hnz, hbeat, hmin, hfirst⟩
            · refine ⟨0, f, qg, by simp, by simp [heq, hres, candOf], hd0, hlt, ?_, ?_⟩
              · intro j g q2 hj
                match j, hj with
                | 0, hj =>
                  simp at hj
                  simp [hj.1, candDist]
                | j + 1, hj =>
                  simp at hj
                  have := hall j g q2 hj
                  simp [distLtBest, candDist] at this ⊢
                  omega
              · intro j hj
                omega
            · refine ⟨i + 1, g, q2, by simpa using hg, by simp [heq, hres], hnz, ?_, ?_, ?_⟩
              · simp [distLtBest, candDist] at hbeat ⊢
                cases bD with
                | none => simp [distLtBest]
                | some bd =>
                  simp [distLtBest] at hlt ⊢
                  exact lt_trans hbeat hlt
              · intro j g3 q3 hj
                match j, hj with
                | 0, hj =>
                  simp at hj
                  have : candDist db minC maxC g < candDist db minC maxC f := by
                    simpa [distLtBest, candDist] using hbeat
                  simp [hj.1, candDist] at this ⊢
                  omega
                | j + 1, hj =>
                  simp at hj
                  exact hmin j g3 q3 hj
              · intro j hj g3 q3 hj2
                match j, hj2 with
                | 0, hj2 =>
                  simp at hj2
                  have : candDist db minC maxC g < candDist db minC maxC f := by
                    simpa [distLtBest, candDist] using hbeat
                  simp [hj2.1, candDist] at this ⊢
                  omega
                | j + 1, hj2 =>
                  simp at hj2
                  exact hfirst j (by omega) g3 q3 hj2
      · have hlt' : distLtBest (distTo minC maxC (countDocuments db f)) bD = false := by
          simpa using hlt
        obtain ⟨bd, hbd⟩ : ∃ bd, bD = some bd := by
          cases bD with
          | none => simp [distLtBest] at hlt'
          | some bd => exact ⟨bd, rfl⟩
        have heq : optimalLoop db minC maxC ((f, qg) :: rest) bF bC bD =
            (let r := optimalLoop db minC maxC rest bF bC bD
             (r.1, r.2.1 + 1, qg + 1 + r.2.2)) := by
          simp [optimalLoop, hd0, hlt']
        rcases ih bF bC bD with
          ⟨i, g, q2, hg, hres, hzero⟩ | ⟨hlen, hinner⟩
        · left
          exact ⟨i + 1, g, q2, by simpa using hg, by simp [heq, hres], hzero⟩
        · right
          constructor
          · simp [heq, hlen]
          · rcases hinner with ⟨hres, hall⟩ | ⟨i, g, q2, hg, hres, hnz, hbeat, hmin, hfirst⟩
            · left
              refine ⟨by simp [heq, hres], ?_⟩
              intro j g3 q3 hj
              match j, hj with
              | 0, hj =>
                simp at hj
                simpa [hj.1, candDist] using hlt'
              | j + 1, hj =>
                simp at hj
                exact hall j g3 q3 hj
            · right
              have hgd : candDist db minC maxC g < bd := by
                simpa [hbd, distLtBest, candDist] using hbeat
              have hfd : bd ≤ candDist db minC maxC f := by
                have h2 := hlt'
                simp [hbd, distLtBest, candDist] at h2 ⊢
                omega
              refine ⟨i + 1, g, q2, by simpa using hg, by simp [heq, hres], hnz,
                hbeat, ?_, ?_⟩
              · intro j g3 q3 hj
                match j, hj with
                | 0, hj =>
                  simp at hj
                  simp [hj.1, candDist] at hgd hfd ⊢
                  omega
                | j + 1, hj =>
                  simp at hj
                  exact hmin j g3 q3 hj
              · intro j hj g3 q3 hj2
                match j, hj2 with
                | 0, hj2 =>
                  simp at hj2
                  simp [hj2.1, candDist] at hgd hfd ⊢
                  omega
                | j + 1, hj2 =>
                  simp at hj2
                  exact hfirst j (by omega) g3 q3 hj2

/-- Distance zero is exactly membership in the acceptable range. -/
theorem distTo_eq_zero_iff (minC maxC c : Nat) :
    distTo minC maxC c = 0 ↔ (minC ≤ c ∧ c ≤ maxC) := by
  simp only [distTo]
  split
  · omega
  · split
    · omega
    · omega

/-- When the target is strictly below the collection size, the degenerate
branch of `generatePreciseUserFilter` is not taken: the filter produced
is the one the randomized strategies supply. -/
theorem generatePreciseUserFilter_of_lt (db : List User) (targetCount : Nat)
    (rest : Filter) (h : targetCount < countDocuments db Filter.matchAll) :
    generatePreciseUserFilter db targetCount rest = (rest, 1) := by
  simp [generatePreciseUserFilter]
  omega

/-- Indexing into the ten-attempt candidate list. -/
theorem attemptList_getElem (db : List User) (restGen : Nat → Filter)
    (targetCount : Nat) (i : Nat) (hi : i < 10) :
    ((List.range 10).map
        (fun i => generatePreciseUserFilter db targetCount (restGen i)))[i]? =
      some (generatePreciseUserFilter db targetCount (restGen i)) := by
  simp [List.getElem?_map, List.getElem?_range, hi]

/-- A concrete user for closed-instance checks. -/
def u0 : User :=
  { age := 30, salary := 50000, status := "active", department := "engineering",
    location := "nyc", isManager := false, email := "a@ex.com", joinDate := 0 }

/-- A one-element collection. -/
def dbOne : List User := [u0]

/-- A constant strategy oracle. -/
def constGen : Nat → Filter := fun _ => Filter.matchAll

/-- C1: for every targetCount < totalCount, `generateOptimalUserFilter`
either returns a result whose count lies within
`[targetCount, targetCount + ceil(targetCount * 0.1)]`, or it performs
exactly 10 attempts and returns, among those 10 candidates, the one with
the minimum distance to the acceptable range (0 inside the range,
otherwise the gap to the nearer bound), ties broken in favor of the
earliest attempt. -/
theorem generateOptimalUserFilter_margin_or_best
    (db : List User) (restGen : Nat → Filter) (targetCount : Nat)
    (h : targetCount < countDocuments db Filter.matchAll) :
    let res := generateOptimalUserFilter db restGen targetCount
    let minC := targetCount
    let maxC := targetCount + marginOfError targetCount
    (minC ≤ res.1.count ∧ res.1.count ≤ maxC) ∨
    (res.2.1 = 10 ∧
      ∃ i : Nat, i < 10 ∧
        res.1.filter = restGen i ∧
        res.1.count = countDocuments db (restGen i) ∧
        (∀ j : Nat, j < 10 →
          candDist db minC maxC (restGen i) ≤ candDist db minC maxC (restGen j)) ∧
        (∀ j : Nat, j < i →
          candDist db minC maxC (restGen i) < candDist db minC maxC (restGen j))) := by
  intro res minC maxC
  have hpre : ∀ i : Nat,
      generatePreciseUserFilter db targetCount (restGen i) = (restGen i, 1) :=
    fun i => generatePreciseUserFilter_of_lt db targetCount (restGen i) h
  set cs := (List.range 10).map
    (fun i => generatePreciseUserFilter db targetCount (restGen i)) with hcs
  have hlen10 : cs.length = 10 := by rw [hcs]; simp
  have hget : ∀ i : Nat, i < 10 → cs[i]? = some (restGen i, 1) := by
    intro i hi
    rw [hcs, attemptList_getElem db restGen targetCount i hi, hpre i]
  have hget' : ∀ (i : Nat) (f : Filter) (q : Nat),
      cs[i]? = some (f, q) → i < 10 ∧ f = restGen i := by
    intro i f q hi
    have hilt : i < 10 := by
      have hw := (List.getElem?_eq_some.mp hi).1
      omega
    rw [hget i hilt] at hi
    simp at hi
    exact ⟨hilt, hi.1.symm⟩
  have hrc : res.1.count = (optimalLoop db minC maxC cs Filter.matchAll 0 none).1.2 := rfl
  have hrf : res.1.filter = (optimalLoop db minC maxC cs Filter.matchAll 0 none).1.1 := rfl
  have hra : res.2.1 = (optimalLoop db minC maxC cs Filter.matchAll 0 none).2.1 := rfl
  rcases optimalLoop_cases db minC maxC cs Filter.matchAll 0 none with
    ⟨i, f, q, hi, hres, hzero⟩ | ⟨hlen, hinner⟩
  · left
    have hcount : res.1.count = countDocuments db f := by
      rw [hrc, hres]
      rfl
    rw [← distTo_eq_zero_iff, hcount]
    exact hzero
  · rcases hinner with ⟨hbest, hall⟩ | ⟨i, f, q, hi, hres, hnz, hbeat, hmin, hfirst⟩
    · exfalso
      have h0 := hall 0 (restGen 0) 1 (hget 0 (by omega))
      simp [distLtBest] at h0
    · right
      obtain ⟨hi10, hfe⟩ := hget' i f q hi
      subst hfe
      constructor
      · rw [hra, hlen, hlen10]
      · refine ⟨i, hi10, ?_, ?_, ?_, ?_⟩
        · rw [hrf, hres]
          rfl
        · rw [hrc, hres]
          rfl
        · intro j hj
          exact hmin j (restGen j) 1 (hget j hj)
        · intro j hj
          exact hfirst j hj (restGen j) 1 (hget j (by omega))

/-- Closed instance discharging the hypothesis of
`generateOptimalUserFilter_margin_or_best` on a one-user collection with
target 0. -/
theorem generateOptimalUserFilter_margin_or_best_witness :
    let res := generateOptimalUserFilter dbOne constGen 0
    let minC := 0
    let maxC := 0 + marginOfError 0
    (minC ≤ res.1.count ∧ res.1.count ≤ maxC) ∨
    (res.2.1 = 10 ∧
      ∃ i : Nat, i < 10 ∧
        res.1.filter = constGen i ∧
        res.1.count = countDocuments dbOne (constGen i) ∧
        (∀ j : Nat, j < 10 →
          candDist dbOne minC maxC (constGen i) ≤ candDist dbOne minC maxC (constGen j)) ∧
        (∀ j : Nat, j < i →
          candDist dbOne minC maxC (constGen i) < candDist dbOne minC maxC (constGen j))) :=
  generateOptimalUserFilter_margin_or_best dbOne constGen 0 (by decide)

/-- C10: every result of `generateOptimalUserFilter` is internally
consistent: its `targetCount` field equals the argument, its `count`
field is the exact document count of its `filter` field, and the
filter/count pair originates from one of the (at most 10) counted
attempts — the initial placeholder `({}, 0)` is never returned as such. -/
theorem generateOptimalUserFilter_result_consistent
    (db : List User) (restGen : Nat → Filter) (targetCount : Nat) :
    let res := (generateOptimalUserFilter db restGen targetCount).1
    res.targetCount = targetCount ∧
    res.count = countDocuments db res.filter ∧
    ∃ i : Nat, i < 10 ∧
      res.filter = (generatePreciseUserFilter db targetCount (restGen i)).1 := by
  intro res
  set cs := (List.range 10).map
    (fun i => generatePreciseUserFilter db targetCount (restGen i)) with hcs
  have hget' : ∀ (i : Nat) (f : Filter) (q : Nat),
      cs[i]? = some (f, q) →
      i < 10 ∧ f = (generatePreciseUserFilter db targetCount (restGen i)).1 := by
    intro i f q hi
    have hilt : i < 10 := by
      have hw := (List.getElem?_eq_some.mp hi).1
      simp [hcs] at hw
      omega
    rw [hcs, attemptList_getElem db restGen targetCount i hilt] at hi
    have h2 := Option.some.inj hi
    exact ⟨hilt, (congrArg Prod.fst h2).symm⟩
  have hrc : res.count = (optimalLoop db targetCount
      (targetCount + marginOfError targetCount) cs Filter.matchAll 0 none).1.2 := rfl
  have hrf : res.filter = (optimalLoop db targetCount
      (targetCount + marginOfError targetCount) cs Filter.matchAll 0 none).1.1 := rfl
  have hrt : res.targetCount = targetCount := rfl
  refine ⟨hrt, ?_⟩
  rcases optimalLoop_cases db targetCount (targetCount + marginOfError targetCount)
      cs Filter.matchAll 0 none with
    ⟨i, f, q, hi, hres, hzero⟩ | ⟨hlen, hinner⟩
  · obtain ⟨hi10, hfe⟩ := hget' i f q hi
    constructor
    · rw [hrc, hrf, hres]
      rfl
    · refine ⟨i, hi10, ?_⟩
      rw [hrf, hres, hfe]
      rfl
  · rcases hinner with ⟨hbest, hall⟩ | ⟨i, f, q, hi, hres, hnz, hbeat, hmin, hfirst⟩
    · exfalso
      have h00 : cs[0]? = some ((generatePreciseUserFilter db targetCount (restGen 0)).1,
          (generatePreciseUserFilter db targetCount (restGen 0)).2) := by
        rw [hcs, attemptList_getElem db restGen targetCount 0 (by omega)]
      have h0 := hall 0 _ _ h00
      simp [distLtBest] at h0
    · obtain ⟨hi10, hfe⟩ := hget' i f q hi
      constructor
      · rw [hrc, hrf, hres]
        rfl
      · refine ⟨i, hi10, ?_⟩
        rw [hrf, hres, hfe]
        rfl

/-- When the best state already holds the match-all candidate at its own
(nonzero) distance, further identical attempts never replace it: each one
adds one attempt and two count queries. -/
theorem optimalLoop_const (db : List User) (minC maxC : Nat)
    (hd : distTo minC maxC (countDocuments db Filter.matchAll) ≠ 0) :
    ∀ n : Nat,
    optimalLoop db minC maxC (List.replicate n (Filter.matchAll, 1)) Filter.matchAll
        (countDocuments db Filter.matchAll)
        (some (distTo minC maxC (countDocuments db Filter.matchAll))) =
      ((Filter.matchAll, countDocuments db Filter.matchAll), n, 2 * n) := by
  intro n
  induction n with
  | zero => simp [optimalLoop]
  | succ k ih =>
    rw [List.replicate_succ]
    simp [optimalLoop, hd, distLtBest, ih]
    omega

/-- C3, amended: for `targetCount >= totalCount` the synthesis returns the
match-all predicate with `count = totalCount` and `targetCount` echoed
back, but it does issue count queries: two per attempt — 2 in total when
`targetCount = totalCount` (the first attempt hits distance 0), 20 in
total when `targetCount > totalCount` (all 10 attempts run), never
zero. -/
theorem generateOptimalUserFilter_degenerate
    (db : List User) (restGen : Nat → Filter) (targetCount : Nat)
    (h : countDocuments db Filter.matchAll ≤ targetCount) :
    let res := generateOptimalUserFilter db restGen targetCount
    res.1.filter = Filter.matchAll ∧
    res.1.count = countDocuments db Filter.matchAll ∧
    res.1.targetCount = targetCount ∧
    0 < res.2.2 ∧
    res.2.2 = (if targetCount = countDocuments db Filter.matchAll then 2 else 20) := by
  intro res
  have hpre : ∀ r : Filter,
      generatePreciseUserFilter db targetCount r = (Filter.matchAll, 1) := by
    intro r
    simp [generatePreciseUserFilter, h]
  have hcs : (List.range 10).map
      (fun i => generatePreciseUserFilter db targetCount (restGen i))
      = List.replicate 10 (Filter.matchAll, 1) := by
    simp [hpre]
  have hrf : res.1.filter = (optimalLoop db targetCount
      (targetCount + marginOfError targetCount)
      ((List.range 10).map (fun i => generatePreciseUserFilter db targetCount (restGen i)))
      Filter.matchAll 0 none).1.1 := rfl
  have hrc : res.1.count = (optimalLoop db targetCount
      (targetCount + marginOfError targetCount)
      ((List.range 10).map (fun i => generatePreciseUserFilter db targetCount (restGen i)))
      Filter.matchAll 0 none).1.2 := rfl
  have hrq : res.2.2 = (optimalLoop db targetCount
      (targetCount + marginOfError targetCount)
      ((List.range 10).map (fun i => generatePreciseUserFilter db targetCount (restGen i)))
      Filter.matchAll 0 none).2.2 := rfl
  by_cases teq : targetCount = countDocuments db Filter.matchAll
  · have hd0 : distTo targetCount (targetCount + marginOfError targetCount)
        (countDocuments db Filter.matchAll) = 0 := by
      rw [distTo_eq_zero_iff]
      omega
    have hloop : optimalLoop db targetCount (targetCount + marginOfError targetCount)
        (List.replicate 10 (Filter.matchAll, 1)) Filter.matchAll 0 none
        = ((Filter.matchAll, countDocuments db Filter.matchAll), 1, 2) := by
      rw [show (List.replicate 10 ((Filter.matchAll : Filter), (1 : Nat)))
          = (Filter.matchAll, 1) :: List.replicate 9 (Filter.matchAll, 1) from rfl]
      simp [optimalLoop, hd0]
    rw [hcs, hloop] at hrf hrc hrq
    simp only [] at hrf hrc hrq
    exact ⟨hrf, hrc, rfl, by omega, by rw [hrq, if_pos teq]⟩
  · have hlt : countDocuments db Filter.matchAll < targetCount := by omega
    have hd : distTo targetCount (targetCount + marginOfError targetCount)
        (countDocuments db Filter.matchAll) ≠ 0 := by
      rw [Ne, distTo_eq_zero_iff]
      omega
    have hloop : optimalLoop db targetCount (targetCount + marginOfError targetCount)
        (List.replicate 10 (Filter.matchAll, 1)) Filter.matchAll 0 none
        = ((Filter.matchAll, countDocuments db Filter.matchAll), 10, 20) := by
      rw [show (List.replicate 10 ((Filter.matchAll : Filter), (1 : Nat)))
          = (Filter.matchAll, 1) :: List.replicate 9 (Filter.matchAll, 1) from rfl]
      simp [optimalLoop, hd, distLtBest, optimalLoop_const db _ _ hd 9]
    rw [hcs, hloop] at hrf hrc hrq
    simp only [] at hrf hrc hrq
    exact ⟨hrf, hrc, rfl, by omega, by rw [hrq, if_neg teq]⟩

/-- Closed instance discharging the hypothesis of
`generateOptimalUserFilter_degenerate` on a one-user collection with
target 1. -/
theorem generateOptimalUserFilter_degenerate_witness :
    let res := generateOptimalUserFilter dbOne constGen 1
    res.1.filter = Filter.matchAll ∧
    res.1.count = countDocuments dbOne Filter.matchAll ∧
    res.1.targetCount = 1 ∧
    0 < res.2.2 ∧
    res.2.2 = (if 1 = countDocuments dbOne Filter.matchAll then 2 else 20) :=
  generateOptimalUserFilter_degenerate dbOne constGen 1 (by decide)

/-- C3 counterexample: on a one-user collection with target 1
(`targetCount = totalCount`, the degenerate case) the synthesis run does
return the match-all predicate with `count = totalCount`, but it issues
2 count queries, not zero. -/
theorem generateOptimalUserFilter_degenerate_counterexample :
    countDocuments dbOne Filter.matchAll ≤ 1 ∧
    (generateOptimalUserFilter dbOne constGen 1).1.filter = Filter.matchAll ∧
    (generateOptimalUserFilter dbOne constGen 1).1.count = 1 ∧
    (generateOptimalUserFilter dbOne constGen 1).2.2 ≠ 0 :=
  ⟨by decide, rfl, rfl, by decide⟩

/-- The three categorical fields of strategy 3 (src/filters.ts line 204). -/
inductive CatField where
  | status : CatField
  | department : CatField
  | location : CatField
deriving DecidableEq, Repr

/-- Field-equality predicate on one categorical field (src/filters.ts
lines 230-232). -/
def catEq : CatField → String → Filter
  | .status, v => .statusEq v
  | .department, v => .departmentEq v
  | .location, v => .locationEq v

/-- Set-membership (`$in`) predicate on one categorical field
(src/filters.ts lines 234-236). -/
def catIn : CatField → List String → Filter
  | .status, vs => .statusIn vs
  | .department, vs => .departmentIn vs
  | .location, vs => .locationIn vs

/-- The greedy accumulation loop of strategy 3 (src/filters.ts lines
216-227): walk the per-value counts in the order given, push each value,
and break once the cumulative count reaches or exceeds the target. -/
def selectValues (targetCount : Nat) : Nat → List (String × Nat) → List String
  | _, [] => []
  | cumulative, (v, c) :: rest =>
    if targetCount ≤ cumulative + c then [v]
    else v :: selectValues targetCount (cumulative + c) rest

/-- Strategy 3, categorical set cover (src/filters.ts lines 203-238):
given the per-value counts of one categorical field (sorted by descending
count by the aggregation pipeline), greedily accumulate values covering
the target; return an equality predicate when a single value was
selected, a `$in` predicate over the selected values when several were,
and fall through (`none`) when the count list is empty. -/
def categoricalSetCover (field : CatField) (counts : List (String × Nat))
    (targetCount : Nat) : Option Filter :=
  if 0 < counts.length then
    match selectValues targetCount 0 counts with
    | [] => none
    | [v] => some (catEq field v)
    | v :: vs => some (catIn field (v :: vs))
  else none

/-- Specification-side cover length: the number of values the greedy walk
takes — the least prefix whose counts sum to at least the target, or all
of them when the total falls short. -/
def coverLen (targetCount : Nat) : List (String × Nat) → Nat
  | [] => 0
  | (_, c) :: rest =>
    if targetCount ≤ c then 1 else 1 + coverLen (targetCount - c) rest

/-- The greedy walk takes exactly the `coverLen`-long prefix of values. -/
theorem selectValues_eq_take :
    ∀ (counts : List (String × Nat)) (targetCount cumulative : Nat),
    cumulative < targetCount →
    selectValues targetCount cumulative counts
      = (counts.map Prod.fst).take (coverLen (targetCount - cumulative) counts) := by
  intro counts
  induction counts with
  | nil => intro t c _; rfl
  | cons hd rest ih =>
    obtain ⟨v, c⟩ := hd
    intro t cum hcum
    by_cases hstop : t ≤ cum + c
    · have h1 : t - cum ≤ c := by omega
      simp [selectValues, coverLen, hstop, h1]
    · have h1 : ¬ (t - cum ≤ c) := by omega
      have h2 : t - cum - c = t - (cum + c) := by omega
      simp only [selectValues, coverLen, if_neg hstop, if_neg h1, List.map_cons, h2]
      rw [ih t (cum + c) (by omega), Nat.one_add, List.take_succ_cons]

/-- `coverLen` is the first prefix reaching the target: the selected
prefix covers the target (unless the whole list falls short), and every
shorter prefix falls strictly short. -/
theorem coverLen_first_cover :
    ∀ (counts : List (String × Nat)) (targetCount : Nat), 1 ≤ targetCount →
    (targetCount ≤ (((counts.take (coverLen targetCount counts)).map Prod.snd).sum)
      ∨ coverLen targetCount counts = counts.length) ∧
    (∀ m : Nat, m < coverLen targetCount counts →
      (((counts.take m).map Prod.snd).sum) < targetCount) := by
  intro counts
  induction counts with
  | nil =>
    intro t _
    exact ⟨Or.inr rfl, by intro m hm; simp [coverLen] at hm⟩
  | cons hd rest ih =>
    obtain ⟨v, c⟩ := hd
    intro t ht
    by_cases hstop : t ≤ c
    · have hk : coverLen t ((v, c) :: rest) = 1 := by
        simp [coverLen, hstop]
      refine ⟨Or.inl ?_, ?_⟩
      · rw [hk]
        simpa using hstop
      · intro m hm
        rw [hk] at hm
        have hm0 : m = 0 := by omega
        subst hm0
        simpa using ht
    · have hc : c < t := by omega
      have hk : coverLen t ((v, c) :: rest) = coverLen (t - c) rest + 1 := by
        simp [coverLen, hstop]
        omega
      obtain ⟨ihl, ihr⟩ := ih (t - c) (by omega)
      refine ⟨?_, ?_⟩
      · rcases ihl with h1 | h1
        · left
          rw [hk, List.take_succ_cons, List.map_cons, List.sum_cons]
          omega
        · right
          rw [hk, h1, List.length_cons]
      · intro m hm
        rw [hk] at hm
        match m, hm with
        | 0, hm => simpa using ht
        | m + 1, hm =>
          have h3 := ihr m (by omega)
          rw [List.take_succ_cons, List.map_cons, List.sum_cons]
          omega

/-- C6: the categorical set-cover strategy greedily accumulates the
values of one categorical field, in the given descending-frequency
order, until the cumulative count first reaches or exceeds the target,
and returns a field-equality predicate when exactly one value was
accumulated, or a `$in` set-membership predicate over the accumulated
values when more than one was. -/
theorem categoricalSetCover_spec (field : CatField)
    (counts : List (String × Nat)) (targetCount : Nat)
    (ht : 1 ≤ targetCount) (hne : counts ≠ []) :
    let sel := selectValues targetCount 0 counts
    let k := coverLen targetCount counts
    sel = (counts.map Prod.fst).take k ∧
    (targetCount ≤ (((counts.take k).map Prod.snd).sum) ∨ k = counts.length) ∧
    (∀ m : Nat, m < k → (((counts.take m).map Prod.snd).sum) < targetCount) ∧
    (∀ v : String, sel = [v] →
      categoricalSetCover field counts targetCount = some (catEq field v)) ∧
    (∀ (v : String) (vs : List String), sel = v :: vs → vs ≠ [] →
      categoricalSetCover field counts targetCount = some (catIn field (v :: vs))) := by
  intro sel k
  have h0 : 0 < counts.length := by
    cases counts with
    | nil => exact absurd rfl hne
    | cons a l => simp
  have hsel : sel = (counts.map Prod.fst).take k := by
    have := selectValues_eq_take counts targetCount 0 (by omega)
    simpa using this
  obtain ⟨hcov, hshort⟩ := coverLen_first_cover counts targetCount ht
  refine ⟨hsel, hcov, hshort, ?_, ?_⟩
  · intro v hv
    simp only [categoricalSetCover, if_pos h0]
    rw [show selectValues targetCount 0 counts = [v] from hv]
  · intro v vs hv hvs
    simp only [categoricalSetCover, if_pos h0]
    rw [show selectValues targetCount 0 counts = v :: vs from hv]
    cases vs with
    | nil => exact absurd rfl hvs
    | cons w ws => rfl

/-- Closed instance discharging the hypotheses of
`categoricalSetCover_spec`: counts a=2, b=1 with target 3 select both
values and produce the `$in` predicate. -/
theorem categoricalSetCover_spec_witness :
    let counts := [("a", 2), ("b", 1)]
    let sel := selectValues 3 0 counts
    let k := coverLen 3 counts
    sel = (counts.map Prod.fst).take k ∧
    (3 ≤ (((counts.take k).map Prod.snd).sum) ∨ k = counts.length) ∧
    (∀ m : Nat, m < k → (((counts.take m).map Prod.snd).sum) < 3) ∧
    (∀ v : String, sel = [v] →
      categoricalSetCover CatField.status counts 3 = some (catEq CatField.status v)) ∧
    (∀ (v : String) (vs : List String), sel = v :: vs → vs ≠ [] →
      categoricalSetCover CatField.status counts 3
        = some (catIn CatField.status (v :: vs))) :=
  categoricalSetCover_spec CatField.status [("a", 2), ("b", 1)] 3
    (by decide) (by decide)

/-- The fallback strategy (src/filters.ts lines 265-274): a numeric
age-range predicate of size `Math.ceil((80 - 18) * targetPercentage)`
starting at `18 + Math.floor(Math.random() * (62 - ageRangeSize))`.  The
`Math.random()` draw is the explicit parameter `rand`; the real-valued
arithmetic is carried out exactly over the rationals. -/
def generateFallbackAgeFilter (targetCount totalUsers : Nat) (rand : ℚ) : Filter :=
  let targetPercentage : ℚ := (targetCount : ℚ) / (totalUsers : ℚ)
  let ageRangeSize : Int := ⌈(80 - 18 : ℚ) * targetPercentage⌉
  let startAge : Int := 18 + ⌊rand * ((62 : ℚ) - (ageRangeSize : ℚ))⌋
  Filter.ageRange startAge (startAge + ageRangeSize)

/-- Lower bound of an age-range predicate (projection used to separate
two concrete fallback outputs). -/
def ageLo : Filter → Int
  | .ageRange lo _ => lo
  | _ => 0

/-- C9 counterexample: two invocations of the fallback strategy for the
same target fraction (5 of 10) but different random draws (0 and 1/2)
produce different predicates — the range starts at age 18 in one run and
at age 33 in the other, so the strategy is not deterministic as a
function of the target fraction alone. -/
theorem generateFallbackAgeFilter_counterexample :
    generateFallbackAgeFilter 5 10 0 ≠ generateFallbackAgeFilter 5 10 (1 / 2) := by
  have h1 : ageLo (generateFallbackAgeFilter 5 10 0) = 18 := by
    simp only [generateFallbackAgeFilter, ageLo]
    norm_num
  have h2 : ageLo (generateFallbackAgeFilter 5 10 (1 / 2)) = 33 := by
    simp only [generateFallbackAgeFilter, ageLo]
    rw [show ((80 - 18 : ℚ) * (((5 : Nat) : ℚ) / ((10 : Nat) : ℚ))) = 31 by
      push_cast
      norm_num]
    rw [show ⌈(31 : ℚ)⌉ = (31 : Int) by norm_num]
    rw [show ((1 / 2 : ℚ) * ((62 : ℚ) - ((31 : Int) : ℚ))) = 31 / 2 by
      push_cast
      norm_num]
    rw [show ⌊(31 / 2 : ℚ)⌋ = (15 : Int) by
      rw [Int.floor_eq_iff]
      norm_num]
    norm_num
  intro h
  have h3 := congrArg ageLo h
  rw [h1, h2] at h3
  exact absurd h3 (by norm_num)

/-- C9, amended: only the SIZE of the fallback range is deterministic —
for a fixed targetCount and totalCount, any two invocations (any two
random draws) produce age-range predicates of the same width
`ceil(62 * targetCount / totalUsers)`, computed purely from the target
fraction; the randomized start age makes the predicates themselves
differ between invocations in general. -/
theorem generateFallbackAgeFilter_size_deterministic
    (targetCount totalUsers : Nat) (r1 r2 : ℚ) :
    ∃ lo1 lo2 : Int,
      generateFallbackAgeFilter targetCount totalUsers r1
        = Filter.ageRange lo1 (lo1 + ⌈(62 : ℚ) * targetCount / totalUsers⌉) ∧
      generateFallbackAgeFilter targetCount totalUsers r2
        = Filter.ageRange lo2 (lo2 + ⌈(62 : ℚ) * targetCount / totalUsers⌉) := by
  have hc : (80 - 18 : ℚ) * ((targetCount : ℚ) / (totalUsers : ℚ))
      = 62 * (targetCount : ℚ) / (totalUsers : ℚ) := by
    ring
  refine ⟨18 + ⌊r1 * ((62 : ℚ) - ((⌈(62 : ℚ) * targetCount / totalUsers⌉ : Int) : ℚ))⌋,
    18 + ⌊r2 * ((62 : ℚ) - ((⌈(62 : ℚ) * targetCount / totalUsers⌉ : Int) : ℚ))⌋, ?_, ?_⟩
  · simp only [generateFallbackAgeFilter, hc]
  · simp only [generateFallbackAgeFilter, hc]

/-- Numeric summary statistics (`min` / `max` / `avg`) of one field, as
accumulated by the basic-stats aggregation (src/filters.ts lines 34-50);
the average is carried exactly as a rational. -/
structure NumStats where
  min : Int
  max : Int
  avg : ℚ
deriving DecidableEq, Repr

/-- Range (`min` / `max`) of the join-date field. -/
structure DateStats where
  min : Int
  max : Int
deriving DecidableEq, Repr

/-- The distribution snapshot produced by `analyzeUserDistribution`
(src/filters.ts lines 8-18), with the categorical `Record<string,
number>` objects modelled as association lists in first-seen key order. -/
structure DataDistribution where
  totalUsers : Nat
  ageStats : NumStats
  salaryStats : NumStats
  statusCounts : List (String × Nat)
  departmentCounts : List (String × Nat)
  locationCounts : List (String × Nat)
  managerCount : Nat
  joinDateStats : DateStats
  emailDomainCounts : List (Option String × Nat)
deriving DecidableEq, Repr

/-- Record one key occurrence into an association list of counts,
appending unseen keys at the end (the insertion-order semantics of the
JavaScript `Record` the aggregation results are copied into). -/
def bumpKey {α : Type} [DecidableEq α] (acc : List (α × Nat)) (k : α) :
    List (α × Nat) :=
  if acc.any (fun p => decide (p.1 = k)) then
    acc.map (fun p => if p.1 = k then (p.1, p.2 + 1) else p)
  else acc ++ [(k, 1)]

/-- Group a key list into per-key counts (the `$group` / `count` pipelines
of src/filters.ts lines 53-72 followed by the `forEach` copies of lines
95-113). -/
def groupCounts {α : Type} [DecidableEq α] (keys : List α) : List (α × Nat) :=
  keys.foldl bumpKey []

/-- The `$arrayElemAt: [{$split: ["$email", "@"]}, 1]` projection
(src/filters.ts lines 65-72): the part after the first `@`, or the null
group when the email has no `@`. -/
def emailDomain (email : String) : Option String :=
  (email.splitOn "@")[1]?

/-- Minimum of a field over the nonempty collection (`$min`). -/
def aggMin (f : User → Int) (u : User) (us : List User) : Int :=
  us.foldl (fun m w => Min.min m (f w)) (f u)

/-- Maximum of a field over the nonempty collection (`$max`). -/
def aggMax (f : User → Int) (u : User) (us : List User) : Int :=
  us.foldl (fun m w => Max.max m (f w)) (f u)

/-- Exact average of a field over the collection (`$avg`). -/
def aggAvg (f : User → Int) (db : List User) : ℚ :=
  ((db.map (fun u => ((f u : ℚ)))).sum) / (db.length : ℚ)

/-- The five-pipeline snapshot computation of `analyzeUserDistribution`
(src/filters.ts lines 34-129) on a nonempty collection. -/
def computeDistribution (u : User) (us : List User) : DataDistribution :=
  { totalUsers := (u :: us).length
    ageStats :=
      { min := aggMin (fun w => w.age) u us
        max := aggMax (fun w => w.age) u us
        avg := aggAvg (fun w => w.age) (u :: us) }
    salaryStats :=
      { min := aggMin (fun w => w.salary) u us
        max := aggMax (fun w => w.salary) u us
        avg := aggAvg (fun w => w.salary) (u :: us) }
    statusCounts := groupCounts ((u :: us).map (fun w => w.status))
    departmentCounts := groupCounts ((u :: us).map (fun w => w.department))
    locationCounts := groupCounts ((u :: us).map (fun w => w.location))
    managerCount := ((u :: us).filter (fun w => w.isManager)).length
    joinDateStats :=
      { min := aggMin (fun w => w.joinDate) u us
        max := aggMax (fun w => w.joinDate) u us }
    emailDomainCounts := groupCounts ((u :: us).map (fun w => emailDomain w.email)) }

/-- Embedding of `analyzeUserDistribution` (src/filters.ts lines 23-133)
with the module-level `cachedDistribution` passed and returned
explicitly.  Returns the snapshot, the cache state after the call, and
the number of aggregate queries issued during the call: a cache hit
(lines 26-28) returns immediately with no queries; otherwise the five
aggregation pipelines run (lines 74-87), the empty collection is
rejected (lines 89-92, `throw new Error("No user data found for
analysis")`), and the snapshot is computed and cached. -/
def analyzeUserDistribution (cache : Option DataDistribution)
    (db : List User) : Except String (DataDistribution × Option DataDistribution × Nat) :=
  match cache with
  | some d => .ok (d, some d, 0)
  | none =>
    match db with
    | [] => .error "No user data found for analysis"
    | u :: us =>
      let d := computeDistribution u us
      .ok (d, some d, 5)

/-- C7: two sequential `profile()` calls on an unmodified collection
return structurally equal snapshots, and the second call issues no
aggregate queries — the snapshot is memoized via `cachedDistribution`
for the process lifetime. -/
theorem analyzeUserDistribution_memoized (db : List User) (h : db ≠ []) :
    ∃ (d : DataDistribution) (q : Nat),
      analyzeUserDistribution none db = .ok (d, some d, q) ∧
      analyzeUserDistribution (some d) db = .ok (d, some d, 0) := by
  match db, h with
  | u :: us, _ =>
    exact ⟨computeDistribution u us, 5, rfl, rfl⟩

/-- Closed instance discharging the hypothesis of
`analyzeUserDistribution_memoized` on a one-user collection. -/
theorem analyzeUserDistribution_memoized_witness :
    ∃ (d : DataDistribution) (q : Nat),
      analyzeUserDistribution none dbOne = .ok (d, some d, q) ∧
      analyzeUserDistribution (some d) dbOne = .ok (d, some d, 0) :=
  analyzeUserDistribution_memoized dbOne (by simp [dbOne])

/-- C8: on a cold cache, profiling fails (with the
`No user data found for analysis` error, the `EmptyCollection` signal of
the design) exactly when the collection is empty; on a non-empty
collection it always returns a snapshot.  The embedding returns the
error to the caller (`Except.error`) — nothing is caught internally. -/
theorem analyzeUserDistribution_error_iff_empty (db : List User) :
    (analyzeUserDistribution none db
        = .error "No user data found for analysis" ↔ db = []) ∧
    (db ≠ [] → ∃ (d : DataDistribution) (c : Option DataDistribution) (q : Nat),
      analyzeUserDistribution none db = .ok (d, c, q)) := by
  constructor
  · constructor
    · intro herr
      cases db with
      | nil => rfl
      | cons u us => simp [analyzeUserDistribution] at herr
    · intro hdb
      subst hdb
      rfl
  · intro h
    cases db with
    | nil => exact absurd rfl h
    | cons u us =>
      exact ⟨computeDistribution u us, some (computeDistribution u us), 5, rfl⟩

/-- Closed instance exercising both directions of
`analyzeUserDistribution_error_iff_empty`: the empty collection errors,
the one-user collection profiles successfully. -/
theorem analyzeUserDistribution_error_iff_empty_witness :
    analyzeUserDistribution none ([] : List User)
      = .error "No user data found for analysis" ∧
    ∃ (d : DataDistribution) (c : Option DataDistribution) (q : Nat),
      analyzeUserDistribution none dbOne = .ok (d, c, q) :=
  ⟨(analyzeUserDistribution_error_iff_empty []).1.mpr rfl,
    (analyzeUserDistribution_error_iff_empty dbOne).2 (by simp [dbOne])⟩

/-- A document of the `documents` collection (src/index.ts): `_id` models
the ObjectId (globally unique and totally ordered), `user` the owning
user reference matched by the `$in` base predicate, `value` the non-id
sort field (e.g. `createdAt`). -/
structure Doc where
  _id : Int
  user : Int
  value : Int
deriving DecidableEq, Repr

/-- Sort direction: `1` (ascending) or `-1` (descending). -/
inductive SortDir where
  | asc : SortDir
  | desc : SortDir
deriving DecidableEq, Repr

/-- The sort-field selector of the paginator: `_id` itself, or the non-id
field. -/
inductive SortField where
  | idField : SortField
  | valueField : SortField
deriving DecidableEq, Repr

/-- `document[sortField]` as stored into the next cursor (src/index.ts
line 143): the doc's `_id` when sorting by `_id`, the sort field's value
otherwise. -/
def sortValOf : SortField → Doc → Int
  | .idField, d => d._id
  | .valueField, d => d.value

/-- The compound sort key `{[sortField]: dir, _id: dir}` the paginator
always uses (src/index.ts lines 122-124); for `_id` sorting both
components coincide. -/
def keyOf : SortField → Doc → Int × Int
  | .idField, d => (d._id, d._id)
  | .valueField, d => (d.value, d._id)

/-- The cursor continuation clause of the effective query (src/index.ts
lines 100-119): a strict comparison on `_id` alone when sorting by
`_id`, otherwise the strict-or-tie disjunction on the sort field with
the `_id` tie-break. -/
inductive CursorClause where
  | byId (lastId : Int) : CursorClause
  | byValue (lastValue : Int) (lastId : Int) : CursorClause
deriving DecidableEq, Repr

/-- The query object executed by the paginator: the `$in` base predicate
over the user ids, the sort direction fixing the comparison operator
(`$gt` ascending, `$lt` descending), and the optional cursor clause. -/
structure PageQuery where
  userIds : List Int
  dir : SortDir
  clause : Option CursorClause
deriving DecidableEq, Repr

/-- The strict `$gt` / `$lt` comparison selected from the sort direction
(src/index.ts lines 101-102). -/
def cmpAfter : SortDir → Int → Int → Bool
  | .asc, last, x => decide (last < x)
  | .desc, last, x => decide (x < last)

/-- Build the effective query (src/index.ts lines 98-120): the base
predicate alone when no cursor is supplied; with a cursor, the `_id`
comparison for `_id` sorting, and otherwise `basePredicate AND
(sortField cmp lastValue OR (sortField == lastValue AND _id cmp
lastId))`. -/
def buildPageQuery (userIds : List Int) (sortField : SortField)
    (dir : SortDir) (cursor : Option (Int × Int)) : PageQuery :=
  match cursor with
  | none => ⟨userIds, dir, none⟩
  | some (lastValue, lastId) =>
    match sortField with
    | .idField => ⟨userIds, dir, some (.byId lastId)⟩
    | .valueField => ⟨userIds, dir, some (.byValue lastValue lastId)⟩

/-- MongoDB match semantics of the effective query against one
document. -/
def evalPageQuery (q : PageQuery) (d : Doc) : Bool :=
  q.userIds.contains d.user &&
    (match q.clause with
     | none => true
     | some (.byId lastId) => cmpAfter q.dir lastId d._id
     | some (.byValue lastValue lastId) =>
       cmpAfter q.dir lastValue d.value ||
         (decide (d.value = lastValue) && cmpAfter q.dir lastId d._id))

/-- Non-strict lexicographic comparison of sort keys; descending flips
both components, matching the compound sort that applies the same
direction to the tie-break. -/
def keyLe : SortDir → Int × Int → Int × Int → Prop
  | .asc, a, b => a.1 < b.1 ∨ (a.1 = b.1 ∧ a.2 ≤ b.2)
  | .desc, a, b => b.1 < a.1 ∨ (a.1 = b.1 ∧ b.2 ≤ a.2)

/-- Strict lexicographic comparison of sort keys. -/
def keyLt : SortDir → Int × Int → Int × Int → Prop
  | .asc, a, b => a.1 < b.1 ∨ (a.1 = b.1 ∧ a.2 < b.2)
  | .desc, a, b => b.1 < a.1 ∨ (a.1 = b.1 ∧ b.2 < a.2)

instance (dir : SortDir) (a b : Int × Int) : Decidable (keyLe dir a b) :=
  match dir with
  | .asc => inferInstanceAs (Decidable (a.1 < b.1 ∨ (a.1 = b.1 ∧ a.2 ≤ b.2)))
  | .desc => inferInstanceAs (Decidable (b.1 < a.1 ∨ (a.1 = b.1 ∧ b.2 ≤ a.2)))

instance (dir : SortDir) (a b : Int × Int) : Decidable (keyLt dir a b) :=
  match dir with
  | .asc => inferInstanceAs (Decidable (a.1 < b.1 ∨ (a.1 = b.1 ∧ a.2 < b.2)))
  | .desc => inferInstanceAs (Decidable (b.1 < a.1 ∨ (a.1 = b.1 ∧ b.2 < a.2)))

/-- The total preorder the compound sort realizes on documents. -/
def docLe (sf : SortField) (dir : SortDir) (a b : Doc) : Prop :=
  keyLe dir (keyOf sf a) (keyOf sf b)

/-- The strict order the compound sort realizes on documents with
distinct ids. -/
def docLt (sf : SortField) (dir : SortDir) (a b : Doc) : Prop :=
  keyLt dir (keyOf sf a) (keyOf sf b)

instance (sf : SortField) (dir : SortDir) : DecidableRel (docLe sf dir) :=
  fun a b => inferInstanceAs (Decidable (keyLe dir (keyOf sf a) (keyOf sf b)))

instance (sf : SortField) (dir : SortDir) : DecidableRel (docLt sf dir) :=
  fun a b => inferInstanceAs (Decidable (keyLt dir (keyOf sf a) (keyOf sf b)))

/-- The `sort(sortObj)` step: arrange documents by the compound key. -/
def sortDocs (sf : SortField) (dir : SortDir) (l : List Doc) : List Doc :=
  List.insertionSort (docLe sf dir) l

/-- The result of one `page()` call (src/index.ts lines 140-147). -/
structure PageResult where
  documents : List Doc
  nextCursor : Option (Int × Int)
  hasMore : Bool
deriving DecidableEq, Repr

/-- Embedding of `getSingleColumnCursorPagination` (src/index.ts lines
89-148): build the effective query, fetch the matching documents in
compound sort order limited to `limit`, and return them together with
the `hasMore` length heuristic and the next cursor drawn from the last
returned document.  (The program always calls this with a positive
`limit`, so MongoDB's `limit(0)` = no-limit special case is not
modelled.) -/
def getSingleColumnCursorPagination (docs : List Doc) (userIds : List Int)
    (sortField : SortField) (dir : SortDir) (limit : Nat)
    (cursor : Option (Int × Int)) : PageResult :=
  let q := buildPageQuery userIds sortField dir cursor
  let fetched := (sortDocs sortField dir (docs.filter (evalPageQuery q))).take limit
  { documents := fetched
    nextCursor :=
      match fetched.getLast? with
      | some last => some (sortValOf sortField last, last._id)
      | none => none
    hasMore := fetched.length == limit }

/-- C4: when a cursor is supplied with a non-id sort field, the executed
predicate is exactly `basePredicate AND (sortField cmp lastValue OR
(sortField == lastValue AND _id cmp lastId))` with `cmp`
strictly-greater for ascending and strictly-less for descending; when no
cursor is supplied the executed predicate is exactly the base
predicate. -/
theorem buildPageQuery_predicate (userIds : List Int) (d : Doc)
    (lastValue lastId : Int) :
    (evalPageQuery (buildPageQuery userIds .valueField .asc
        (some (lastValue, lastId))) d
      = (userIds.contains d.user &&
          (decide (lastValue < d.value) ||
            (decide (d.value = lastValue) && decide (lastId < d._id))))) ∧
    (evalPageQuery (buildPageQuery userIds .valueField .desc
        (some (lastValue, lastId))) d
      = (userIds.contains d.user &&
          (decide (d.value < lastValue) ||
            (decide (d.value = lastValue) && decide (d._id < lastId))))) ∧
    (∀ (sf : SortField) (dir : SortDir),
      evalPageQuery (buildPageQuery userIds sf dir none) d
        = userIds.contains d.user) := by
  refine ⟨rfl, rfl, ?_⟩
  intro sf dir
  cases sf <;> cases dir <;>
    simp [evalPageQuery, buildPageQuery]

/-- C5: every page result has `hasMore` true exactly when the returned
list has length equal to the requested limit, and `nextCursor` null
exactly when the returned list is empty — otherwise `nextCursor` carries
the sort-field value and the unique id of the last returned item. -/
theorem page_hasMore_nextCursor (docs : List Doc) (userIds : List Int)
    (sf : SortField) (dir : SortDir) (limit : Nat)
    (cursor : Option (Int × Int)) :
    ((getSingleColumnCursorPagination docs userIds sf dir limit cursor).hasMore
        = true
      ↔ (getSingleColumnCursorPagination docs userIds sf dir limit
          cursor).documents.length = limit) ∧
    ((getSingleColumnCursorPagination docs userIds sf dir limit cursor).nextCursor
        = none
      ↔ (getSingleColumnCursorPagination docs userIds sf dir limit
          cursor).documents = []) ∧
    (∀ last : Doc,
      (getSingleColumnCursorPagination docs userIds sf dir limit
          cursor).documents.getLast? = some last →
      (getSingleColumnCursorPagination docs userIds sf dir limit
          cursor).nextCursor = some (sortValOf sf last, last._id)) := by
  refine ⟨?_, ?_, ?_⟩
  · simp [getSingleColumnCursorPagination]
  · simp only [getSingleColumnCursorPagination]
    cases hl : (sortDocs sf dir (docs.filter
        (evalPageQuery (buildPageQuery userIds sf dir cursor)))).take
        limit |>.getLast? with
    | none =>
      simp only [hl]
      rw [List.getLast?_eq_none_iff] at hl
      simp [hl]
    | some last =>
      simp only [hl]
      have : (sortDocs sf dir (docs.filter
          (evalPageQuery (buildPageQuery userIds sf dir cursor)))).take
          limit ≠ [] := by
        intro hemp
        rw [hemp] at hl
        simp at hl
      simp [this]
  · intro last hlast
    simp only [getSingleColumnCursorPagination] at hlast ⊢
    rw [hlast]

/-- The compound-key preorder is total. -/
theorem docLe_total (sf : SortField) (dir : SortDir) :
    ∀ a b : Doc, docLe sf dir a b ∨ docLe sf dir b a := by
  intro a b
  cases dir <;> simp only [docLe, keyLe] <;> omega

/-- The compound-key preorder is transitive. -/
theorem docLe_trans (sf : SortField) (dir : SortDir) :
    ∀ a b c : Doc, docLe sf dir a b → docLe sf dir b c → docLe sf dir a c := by
  intro a b c
  cases dir <;> simp only [docLe, keyLe] <;> omega

/-- The strict compound-key order is asymmetric. -/
theorem docLt_asymm (sf : SortField) (dir : SortDir) :
    ∀ a b : Doc, docLt sf dir a b → docLt sf dir b a → False := by
  intro a b
  cases dir <;> simp only [docLt, keyLt] <;> omega

instance (sf : SortField) (dir : SortDir) : IsTotal Doc (docLe sf dir) :=
  ⟨docLe_total sf dir⟩

instance (sf : SortField) (dir : SortDir) : IsTrans Doc (docLe sf dir) :=
  ⟨fun a b c => docLe_trans sf dir a b c⟩

instance (sf : SortField) (dir : SortDir) : IsAntisymm Doc (docLt sf dir) :=
  ⟨fun a b h1 h2 => (docLt_asymm sf dir a b h1 h2).elim⟩

/-- The second component of a compound key is the document id. -/
theorem keyOf_snd (sf : SortField) (d : Doc) : (keyOf sf d).2 = d._id := by
  cases sf <;> rfl

/-- Non-strict key order strengthens to strict order between documents
with distinct ids. -/
theorem docLt_of_docLe_ne (sf : SortField) (dir : SortDir) (a b : Doc)
    (hle : docLe sf dir a b) (hne : a._id ≠ b._id) : docLt sf dir a b := by
  have h2 : (keyOf sf a).2 ≠ (keyOf sf b).2 := by
    rw [keyOf_snd, keyOf_snd]
    exact hne
  have hidk : ∀ e : Doc, (keyOf sf e).2 = e._id := keyOf_snd sf
  cases sf <;> cases dir <;>
    simp only [docLe, docLt, keyLe, keyLt, keyOf] at hle h2 ⊢ <;> omega

/-- Sorting is a permutation. -/
theorem sortDocs_perm (sf : SortField) (dir : SortDir) (l : List Doc) :
    List.Perm (sortDocs sf dir l) l :=
  List.perm_insertionSort (docLe sf dir) l

/-- Sorting sorts. -/
theorem sortDocs_sorted (sf : SortField) (dir : SortDir) (l : List Doc) :
    List.Sorted (docLe sf dir) (sortDocs sf dir l) :=
  List.sorted_insertionSort (docLe sf dir) l

/-- Distinctness of ids survives permutation. -/
theorem pairwise_ne_of_perm {l1 l2 : List Doc}
    (hp : List.Perm l1 l2)
    (hn : l1.Pairwise (fun a b : Doc => a._id ≠ b._id)) :
    l2.Pairwise (fun a b : Doc => a._id ≠ b._id) :=
  (hp.pairwise_iff (fun h => Ne.symm h)).mp hn

/-- A sorted list of documents with pairwise distinct ids is strictly
sorted. -/
theorem pairwise_lt_of_sorted_le (sf : SortField) (dir : SortDir)
    {l : List Doc} (hs : List.Sorted (docLe sf dir) l)
    (hn : l.Pairwise (fun a b : Doc => a._id ≠ b._id)) :
    l.Pairwise (docLt sf dir) :=
  (List.Pairwise.and hs hn).imp
    (fun h => docLt_of_docLe_ne sf dir _ _ h.1 h.2)

/-- Strictly sorted lists are determined by their contents. -/
theorem sorted_lt_unique (sf : SortField) (dir : SortDir)
    {l1 l2 : List Doc} (hp : List.Perm l1 l2)
    (h1 : l1.Pairwise (docLt sf dir)) (h2 : l2.Pairwise (docLt sf dir)) :
    l1 = l2 :=
  List.eq_of_perm_of_sorted hp h1 h2

/-- On a collection with pairwise distinct ids, filtering commutes with
sorting. -/
theorem sortDocs_filter_comm (sf : SortField) (dir : SortDir)
    (l : List Doc) (p : Doc → Bool)
    (hn : l.Pairwise (fun a b : Doc => a._id ≠ b._id)) :
    sortDocs sf dir (l.filter p) = (sortDocs sf dir l).filter p := by
  have hperm : List.Perm (sortDocs sf dir (l.filter p))
      ((sortDocs sf dir l).filter p) :=
    (sortDocs_perm sf dir (l.filter p)).trans
      ((sortDocs_perm sf dir l).filter p).symm
  have hn1 : (l.filter p).Pairwise (fun a b : Doc => a._id ≠ b._id) :=
    List.Pairwise.sublist (List.filter_sublist l) hn
  have hlt1 : (sortDocs sf dir (l.filter p)).Pairwise (docLt sf dir) :=
    pairwise_lt_of_sorted_le sf dir (sortDocs_sorted sf dir (l.filter p))
      (pairwise_ne_of_perm (sortDocs_perm sf dir (l.filter p)).symm hn1)
  have hlt2 : ((sortDocs sf dir l).filter p).Pairwise (docLt sf dir) := by
    have := pairwise_lt_of_sorted_le sf dir (sortDocs_sorted sf dir l)
      (pairwise_ne_of_perm (sortDocs_perm sf dir l).symm hn)
    exact List.Pairwise.sublist (List.filter_sublist _) this
  exact sorted_lt_unique sf dir hperm hlt1 hlt2

/-- On a strictly sorted list, filtering for the documents strictly
after the element at index `i` keeps exactly the suffix from `i + 1`. -/
theorem filter_keyLt_of_sorted (sf : SortField) (dir : SortDir) :
    ∀ (l : List Doc), l.Pairwise (docLt sf dir) →
    ∀ (i : Nat) (x : Doc), l[i]? = some x →
    l.filter (fun d => decide (keyLt dir (keyOf sf x) (keyOf sf d)))
      = l.drop (i + 1) := by
  intro l
  induction l with
  | nil =>
    intro _ i x hx
    simp at hx
  | cons a rest ih =>
    intro hl i x hx
    rw [List.pairwise_cons] at hl
    obtain ⟨hhead, htail⟩ := hl
    match i, hx with
    | 0, hx =>
      simp only [List.getElem?_cons_zero, Option.some.injEq] at hx
      rw [List.drop_succ_cons, List.drop_zero, List.filter_cons, ← hx]
      have hirr : ¬ keyLt dir (keyOf sf a) (keyOf sf a) := by
        cases dir <;> simp only [keyLt] <;> omega
      rw [if_neg (by simpa using hirr)]
      apply List.filter_eq_self.mpr
      intro d hd
      simpa using hhead d hd
    | i + 1, hx =>
      simp only [List.getElem?_cons_succ] at hx
      have hmem : x ∈ rest := by
        have hw := List.getElem?_eq_some.mp hx
        obtain ⟨hlen, helem⟩ := hw
        exact helem ▸ List.getElem_mem hlen
      have hax : docLt sf dir a x := hhead x hmem
      rw [List.drop_succ_cons, List.filter_cons]
      have hnot : ¬ keyLt dir (keyOf sf x) (keyOf sf a) := by
        intro hcon
        exact docLt_asymm sf dir a x hax hcon
      rw [if_neg (by simpa using hnot)]
      exact ih htail i x hx

/-- Repeatedly request pages, feeding each `nextCursor` back in, until a
page reports `hasMore = false`, and concatenate the returned item lists;
`fuel` bounds the number of page requests (any bound beyond the
collection size is enough for the chain to reach its natural end). -/
def chainPages (docs : List Doc) (userIds : List Int) (sf : SortField)
    (dir : SortDir) (limit : Nat) : Nat → Option (Int × Int) → List Doc
  | 0, _ => []
  | fuel + 1, cursor =>
    let p := getSingleColumnCursorPagination docs userIds sf dir limit cursor
    if p.hasMore then
      p.documents ++ chainPages docs userIds sf dir limit fuel p.nextCursor
    else p.documents

/-- The cursor built from a row's sort value and id matches exactly the
documents strictly after that row in the compound-key order. -/
theorem evalPageQuery_cursor_eq_keyLt (userIds : List Int) (sf : SortField)
    (dir : SortDir) (x d : Doc) :
    evalPageQuery (buildPageQuery userIds sf dir (some (sortValOf sf x, x._id))) d
      = (userIds.contains d.user && decide (keyLt dir (keyOf sf x) (keyOf sf d))) := by
  cases sf <;> cases dir <;>
    · simp only [evalPageQuery, buildPageQuery, cmpAfter, sortValOf, keyOf]
      congr 1
      rw [Bool.eq_iff_iff]
      simp only [Bool.or_eq_true, Bool.and_eq_true, decide_eq_true_eq, keyLt]
      omega

/-- Without a cursor the effective query is the base predicate. -/
theorem evalPageQuery_none (userIds : List Int) (sf : SortField)
    (dir : SortDir) (d : Doc) :
    evalPageQuery (buildPageQuery userIds sf dir none) d
      = userIds.contains d.user := by
  simp [evalPageQuery, buildPageQuery]

/-- One chained step: whenever the pending work is the suffix of the
fully sorted matching list from position `k` and the effective query of
the current cursor selects exactly that suffix, the chain returns the
suffix. -/
theorem chainPages_eq_drop (docs : List Doc) (userIds : List Int)
    (sf : SortField) (dir : SortDir) (limit : Nat) (hlim : 0 < limit)
    (hn : docs.Pairwise (fun a b : Doc => a._id ≠ b._id)) :
    ∀ (fuel k : Nat) (cursor : Option (Int × Int)),
    sortDocs sf dir (docs.filter (evalPageQuery (buildPageQuery userIds sf dir cursor)))
      = (sortDocs sf dir (docs.filter
          (fun d => userIds.contains d.user))).drop k →
    (sortDocs sf dir (docs.filter
        (fun d => userIds.contains d.user))).length - k < fuel →
    chainPages docs userIds sf dir limit fuel cursor
      = (sortDocs sf dir (docs.filter
          (fun d => userIds.contains d.user))).drop k := by
  set L := sortDocs sf dir (docs.filter (fun d => userIds.contains d.user)) with hL
  have hnL : L.Pairwise (fun a b : Doc => a._id ≠ b._id) := by
    rw [hL]
    exact pairwise_ne_of_perm (sortDocs_perm sf dir _).symm
      (List.Pairwise.sublist (List.filter_sublist docs) hn)
  have hltL : L.Pairwise (docLt sf dir) := by
    rw [hL]
    exact pairwise_lt_of_sorted_le sf dir (sortDocs_sorted sf dir _) (hL ▸ hnL)
  intro fuel
  induction fuel with
  | zero =>
    intro k cursor _ hbound
    omega
  | succ fuel ih =>
    intro k cursor hquery hbound
    have hld : (L.drop k).length = L.length - k := by simp
    rw [chainPages]
    have hdocs : (getSingleColumnCursorPagination docs userIds sf dir limit
        cursor).documents = (L.drop k).take limit := by
      simp only [getSingleColumnCursorPagination]
      rw [hquery]
    by_cases hshort : (L.drop k).length < limit
    · have htake : (L.drop k).take limit = L.drop k :=
        List.take_of_length_le (by omega)
      have hmore : (getSingleColumnCursorPagination docs userIds sf dir limit
          cursor).hasMore = false := by
        simp only [getSingleColumnCursorPagination]
        rw [hquery, htake]
        rw [beq_eq_false_iff_ne]
        omega
      rw [hmore]
      simp only [Bool.false_eq_true, if_false]
      rw [hdocs, htake]
    · have hlen : ((L.drop k).take limit).length = limit := by
        rw [List.length_take]
        omega
      have hmore : (getSingleColumnCursorPagination docs userIds sf dir limit
          cursor).hasMore = true := by
        simp only [getSingleColumnCursorPagination]
        rw [hquery]
        simp [hlen]
      obtain ⟨last, hlast⟩ : ∃ last, ((L.drop k).take limit).getLast? = some last := by
        cases hgl : ((L.drop k).take limit).getLast? with
        | none =>
          rw [List.getLast?_eq_none_iff] at hgl
          rw [hgl] at hlen
          simp at hlen
          omega
        | some y => exact ⟨y, rfl⟩
      have hcur : (getSingleColumnCursorPagination docs userIds sf dir limit
          cursor).nextCursor = some (sortValOf sf last, last._id) := by
        simp only [getSingleColumnCursorPagination]
        rw [hquery, hlast]
      have hidx : L[k + (limit - 1)]? = some last := by
        have h1 : ((L.drop k).take limit).getLast?
            = ((L.drop k).take limit)[limit - 1]? := by
          rw [List.getLast?_eq_getElem?, hlen]
        rw [h1, List.getElem?_take_of_lt (by omega), List.getElem?_drop] at hlast
        exact hlast
      have hquery2 : sortDocs sf dir (docs.filter (evalPageQuery
          (buildPageQuery userIds sf dir (some (sortValOf sf last, last._id)))))
          = L.drop (k + limit) := by
        have hfc : docs.filter (evalPageQuery (buildPageQuery userIds sf dir
            (some (sortValOf sf last, last._id))))
            = (docs.filter (fun d => userIds.contains d.user)).filter
                (fun d => decide (keyLt dir (keyOf sf last) (keyOf sf d))) := by
          rw [List.filter_filter]
          apply List.filter_congr
          intro d _
          rw [evalPageQuery_cursor_eq_keyLt, Bool.and_comm]
        rw [hfc, sortDocs_filter_comm sf dir _ _
          (List.Pairwise.sublist (List.filter_sublist docs) hn), ← hL]
        rw [filter_keyLt_of_sorted sf dir L hltL (k + (limit - 1)) last hidx]
        congr 1
        omega
      rw [hmore, if_pos rfl, hdocs, hcur]
      rw [ih (k + limit) (some (sortValOf sf last, last._id)) hquery2 (by omega)]
      rw [show L.drop (k + limit) = (L.drop k).drop limit by
        rw [List.drop_drop]]
      exact List.take_append_drop limit (L.drop k)

/-- C2: for any base predicate (user-id set), sort field, direction and
positive limit, on a collection of unique-id documents, concatenating
the item lists of successive `page()` calls chained through `nextCursor`
until `hasMore = false` yields every matching document exactly once —
a permutation of the matching sublist, with no duplicates or omissions —
in the total sort order (primary sort field, then the unique `_id`
tie-break). -/
theorem keyset_pagination_total_order (docs : List Doc) (userIds : List Int)
    (sf : SortField) (dir : SortDir) (limit : Nat) (hlim : 0 < limit)
    (hids : docs.Pairwise (fun a b : Doc => a._id ≠ b._id)) :
    List.Perm (chainPages docs userIds sf dir limit (docs.length + 1) none)
      (docs.filter (fun d => userIds.contains d.user)) ∧
    (chainPages docs userIds sf dir limit (docs.length + 1) none).Pairwise
      (fun a b : Doc => keyLt dir (keyOf sf a) (keyOf sf b)) := by
  have hbase : docs.filter (evalPageQuery (buildPageQuery userIds sf dir none))
      = docs.filter (fun d => userIds.contains d.user) := by
    apply List.filter_congr
    intro d _
    exact evalPageQuery_none userIds sf dir d
  have hchain : chainPages docs userIds sf dir limit (docs.length + 1) none
      = sortDocs sf dir (docs.filter (fun d => userIds.contains d.user)) := by
    have h0 := chainPages_eq_drop docs userIds sf dir limit hlim hids
      (docs.length + 1) 0 none
      (by rw [hbase, List.drop_zero])
      (by
        have h1 : (sortDocs sf dir (docs.filter
            (fun d => userIds.contains d.user))).length ≤ docs.length := by
          rw [(sortDocs_perm sf dir _).length_eq]
          exact List.length_filter_le _ docs
        omega)
    rw [h0, List.drop_zero]
  rw [hchain]
  constructor
  · exact sortDocs_perm sf dir _
  · have hnf : (docs.filter (fun d => userIds.contains d.user)).Pairwise
        (fun a b : Doc => a._id ≠ b._id) :=
      List.Pairwise.sublist (List.filter_sublist docs) hids
    exact pairwise_lt_of_sorted_le sf dir (sortDocs_sorted sf dir _)
      (pairwise_ne_of_perm (sortDocs_perm sf dir _).symm hnf)

/-- Closed instance discharging the hypotheses of
`keyset_pagination_total_order`: two documents tied on the sort value,
page size 1. -/
theorem keyset_pagination_total_order_witness :
    List.Perm (chainPages [⟨1, 7, 5⟩, ⟨2, 7, 5⟩] [7] SortField.valueField
        SortDir.asc 1 (2 + 1) none)
      (([⟨1, 7, 5⟩, ⟨2, 7, 5⟩] : List Doc).filter
        (fun d => ([7] : List Int).contains d.user)) ∧
    (chainPages [⟨1, 7, 5⟩, ⟨2, 7, 5⟩] [7] SortField.valueField
        SortDir.asc 1 (2 + 1) none).Pairwise
      (fun a b : Doc => keyLt SortDir.asc (keyOf SortField.valueField a)
        (keyOf SortField.valueField b)) :=
  keyset_pagination_total_order [⟨1, 7, 5⟩, ⟨2, 7, 5⟩] [7]
    SortField.valueField SortDir.asc 1 (by decide) (by decide)

end MQP
